import Mathlib

/-!
# Verification of the annota asset-file core

Shallow embedding of the annota image-annotation document model and the
`ImageAsset` API (`src/annota/cli/typing.py`, `src/annota/cli/file/asset.py`,
`src/annota/cli/file/__init__.py`).

Modelling conventions:
* JSON values are the inductive `Json` below; the textual JSON layer
  (Python's `json` module / pydantic's `model_validate_json` and
  `model_dump_json`) is embedded at the JSON-tree level.  A stored file's
  content is `Option Json`: `none` stands for text that is not well-formed
  JSON (raising `json.JSONDecodeError`), `some j` for text parsing to the
  tree `j`.  The `indent` argument of `model_dump_json` only shapes the
  whitespace of the rendered text and never the tree, so `dumps` carries it
  as an argument that the tree-level result does not depend on.
* Python `int` is `Int`; `datetime` values (always timezone-aware UTC here)
  are epoch integers, their ISO-8601 text form being part of the abstracted
  textual layer.
* Python `dict` payloads (`custom` attributes, `extra`) are ordered
  association lists `List (String × Json)`.
* The impure `datetime.now(timezone.utc)` calls are injected clock readings
  passed as explicit arguments, one per call site.
* File-system state is a function from locations to optional file contents.
-/

/-- A JSON value tree. Numbers are modelled as integers: every numeric field
of the schema is an `int`, and the claims exercise no other numerals. -/
inductive Json where
  | null : Json
  | bool (b : Bool) : Json
  | num (n : Int) : Json
  | str (s : String) : Json
  | arr (elems : List Json) : Json
  | obj (fields : List (String × Json)) : Json

mutual

/-- Structural equality test on JSON trees (Python `==` on JSON-compatible
values). -/
def Json.beq : Json → Json → Bool
  | Json.null, Json.null => true
  | Json.bool a, Json.bool b => a == b
  | Json.num a, Json.num b => a == b
  | Json.str a, Json.str b => a == b
  | Json.arr as, Json.arr bs => Json.beqList as bs
  | Json.obj as, Json.obj bs => Json.beqObj as bs
  | _, _ => false

/-- Pointwise equality test on JSON arrays. -/
def Json.beqList : List Json → List Json → Bool
  | [], [] => true
  | a :: as, b :: bs => Json.beq a b && Json.beqList as bs
  | _, _ => false

/-- Pointwise equality test on JSON objects. -/
def Json.beqObj : List (String × Json) → List (String × Json) → Bool
  | [], [] => true
  | (k, v) :: as, (k', v') :: bs => k == k' && Json.beq v v' && Json.beqObj as bs
  | _, _ => false

end

mutual

theorem Json.beq_iff : ∀ a b : Json, Json.beq a b = true ↔ a = b
  | Json.null, Json.null => by simp [Json.beq]
  | Json.null, Json.bool _ | Json.null, Json.num _ | Json.null, Json.str _
  | Json.null, Json.arr _ | Json.null, Json.obj _ => by simp [Json.beq]
  | Json.bool _, Json.null | Json.bool _, Json.num _ | Json.bool _, Json.str _
  | Json.bool _, Json.arr _ | Json.bool _, Json.obj _ => by simp [Json.beq]
  | Json.bool a, Json.bool b => by simp [Json.beq]
  | Json.num _, Json.null | Json.num _, Json.bool _ | Json.num _, Json.str _
  | Json.num _, Json.arr _ | Json.num _, Json.obj _ => by simp [Json.beq]
  | Json.num a, Json.num b => by simp [Json.beq]
  | Json.str _, Json.null | Json.str _, Json.bool _ | Json.str _, Json.num _
  | Json.str _, Json.arr _ | Json.str _, Json.obj _ => by simp [Json.beq]
  | Json.str a, Json.str b => by simp [Json.beq, beq_iff_eq]
  | Json.arr _, Json.null | Json.arr _, Json.bool _ | Json.arr _, Json.num _
  | Json.arr _, Json.str _ | Json.arr _, Json.obj _ => by simp [Json.beq]
  | Json.arr as, Json.arr bs => by simp [Json.beq, Json.beqList_iff as bs]
  | Json.obj _, Json.null | Json.obj _, Json.bool _ | Json.obj _, Json.num _
  | Json.obj _, Json.str _ | Json.obj _, Json.arr _ => by simp [Json.beq]
  | Json.obj as, Json.obj bs => by simp [Json.beq, Json.beqObj_iff as bs]

theorem Json.beqList_iff : ∀ as bs : List Json, Json.beqList as bs = true ↔ as = bs
  | [], [] => by simp [Json.beqList]
  | [], _ :: _ => by simp [Json.beqList]
  | _ :: _, [] => by simp [Json.beqList]
  | a :: as, b :: bs => by
      simp [Json.beqList, Json.beq_iff a b, Json.beqList_iff as bs]

theorem Json.beqObj_iff :
    ∀ as bs : List (String × Json), Json.beqObj as bs = true ↔ as = bs
  | [], [] => by simp [Json.beqObj]
  | [], _ :: _ => by simp [Json.beqObj]
  | _ :: _, [] => by simp [Json.beqObj]
  | (k, v) :: as, (k', v') :: bs => by
      simp [Json.beqObj, Json.beq_iff v v', Json.beqObj_iff as bs,
        beq_iff_eq, and_assoc]

end

instance : DecidableEq Json := fun a b =>
  decidable_of_iff _ (Json.beq_iff a b)

/-- First value bound to key `k`, as Python `dict.get` (JSON objects decoded
by Python never hold duplicate keys). -/
def lookupKey (kvs : List (String × Json)) (k : String) : Option Json :=
  match kvs with
  | [] => none
  | (k', v) :: rest => if k' = k then some v else lookupKey rest k

/-- `Rect` from typing.py. -/
structure Rect where
  x : Int
  y : Int
  width : Int
  height : Int
deriving DecidableEq

/-- `Point` from typing.py. -/
structure Point where
  x : Int
  y : Int
deriving DecidableEq

/-- `Vec2` from typing.py. -/
structure Vec2 where
  x1 : Int
  y1 : Int
  x2 : Int
  y2 : Int
deriving DecidableEq

/-- `ImageFile` from typing.py. -/
structure ImageFile where
  width : Int
  height : Int
deriving DecidableEq

/-- `Meta` from typing.py; the two `datetime` fields are epoch integers. -/
structure Meta where
  version : Int
  tool : String
  tool_version : String
  created_at : Int
  updated_at : Int
deriving DecidableEq

/-- The discriminated union of `Annotation.attributes` in typing.py: the four
built-in geometry variants plus the open-mapping `custom` fallback
(`Annotated[dict, Tag('custom')]`). -/
inductive AnnotationAttributes where
  | slice (geometry : Rect) : AnnotationAttributes
  | box (geometry : Rect) : AnnotationAttributes
  | point (geometry : Point) : AnnotationAttributes
  | swipe (geometry : Vec2) : AnnotationAttributes
  | custom (payload : List (String × Json)) : AnnotationAttributes
deriving DecidableEq

/-- `Annotation` from typing.py. -/
structure Annotation where
  uuid : String
  name : String
  display_name : String
  description : Option String
  attributes : AnnotationAttributes
  extra : Option (List (String × Json))
deriving DecidableEq

/-- `Document` from typing.py. -/
structure Document where
  type : String
  meta : Meta
  file : ImageFile
  annotations : List Annotation
deriving DecidableEq

/-- `_attributes_type` from typing.py: the callable discriminator. It reads
only the `type` key of the payload. -/
def attributesType (kvs : List (String × Json)) : String :=
  match lookupKey kvs "type" with
  | some (Json.str t) =>
      if t = "slice" ∨ t = "box" ∨ t = "point" ∨ t = "swipe" then t else "custom"
  | _ => "custom"

/-- `FORMAT_VERSION` from file/__init__.py. -/
def FORMAT_VERSION : Int := 1

/-! ## Encoding (`model_dump_json`, at the JSON-tree level)

Pydantic serializes fields in declaration order; `None` optionals are dumped
as `null`; the `custom` dict variant and `extra` dicts are dumped verbatim. -/

def encodeRect (r : Rect) : Json :=
  Json.obj [("x", Json.num r.x), ("y", Json.num r.y),
    ("width", Json.num r.width), ("height", Json.num r.height)]

def encodePoint (p : Point) : Json :=
  Json.obj [("x", Json.num p.x), ("y", Json.num p.y)]

def encodeVec2 (v : Vec2) : Json :=
  Json.obj [("x1", Json.num v.x1), ("y1", Json.num v.y1),
    ("x2", Json.num v.x2), ("y2", Json.num v.y2)]

def encodeAttributes : AnnotationAttributes → Json
  | AnnotationAttributes.slice g =>
      Json.obj [("type", Json.str "slice"), ("geometry", encodeRect g)]
  | AnnotationAttributes.box g =>
      Json.obj [("type", Json.str "box"), ("geometry", encodeRect g)]
  | AnnotationAttributes.point g =>
      Json.obj [("type", Json.str "point"), ("geometry", encodePoint g)]
  | AnnotationAttributes.swipe g =>
      Json.obj [("type", Json.str "swipe"), ("geometry", encodeVec2 g)]
  | AnnotationAttributes.custom kvs => Json.obj kvs

def encodeOptStr : Option String → Json
  | none => Json.null
  | some s => Json.str s

def encodeOptObj : Option (List (String × Json)) → Json
  | none => Json.null
  | some kvs => Json.obj kvs

def encodeAnnotation (a : Annotation) : Json :=
  Json.obj [("uuid", Json.str a.uuid), ("name", Json.str a.name),
    ("display_name", Json.str a.display_name),
    ("description", encodeOptStr a.description),
    ("attributes", encodeAttributes a.attributes),
    ("extra", encodeOptObj a.extra)]

def encodeMeta (m : Meta) : Json :=
  Json.obj [("version", Json.num m.version), ("tool", Json.str m.tool),
    ("tool_version", Json.str m.tool_version),
    ("created_at", Json.num m.created_at),
    ("updated_at", Json.num m.updated_at)]

def encodeImageFile (f : ImageFile) : Json :=
  Json.obj [("width", Json.num f.width), ("height", Json.num f.height)]

def encodeDocument (d : Document) : Json :=
  Json.obj [("type", Json.str d.type), ("meta", encodeMeta d.meta),
    ("file", encodeImageFile d.file),
    ("annotations", Json.arr (d.annotations.map encodeAnnotation))]

/-! ## Decoding (`Document.model_validate_json`, at the JSON-tree level)

Errors are validation messages (pydantic `ValidationError`).  Unknown keys in
a model payload are ignored (pydantic default config).  `Annotation.uuid` has
a `default_factory`; the injected generator supplies the fresh value used when
the key is absent. -/

def decodeInt : Json → Except String Int
  | Json.num n => Except.ok n
  | _ => Except.error "expected int"

def decodeStr : Json → Except String String
  | Json.str s => Except.ok s
  | _ => Except.error "expected str"

def requireKey (kvs : List (String × Json)) (k : String) : Except String Json :=
  match lookupKey kvs k with
  | some v => Except.ok v
  | none => Except.error (k ++ ": field required")

def decodeRect (j : Json) : Except String Rect :=
  match j with
  | Json.obj kvs => do
      let x ← requireKey kvs "x" >>= decodeInt
      let y ← requireKey kvs "y" >>= decodeInt
      let width ← requireKey kvs "width" >>= decodeInt
      let height ← requireKey kvs "height" >>= decodeInt
      return { x, y, width, height }
  | _ => Except.error "Rect: expected object"

def decodePoint (j : Json) : Except String Point :=
  match j with
  | Json.obj kvs => do
      let x ← requireKey kvs "x" >>= decodeInt
      let y ← requireKey kvs "y" >>= decodeInt
      return { x, y }
  | _ => Except.error "Point: expected object"

def decodeVec2 (j : Json) : Except String Vec2 :=
  match j with
  | Json.obj kvs => do
      let x1 ← requireKey kvs "x1" >>= decodeInt
      let y1 ← requireKey kvs "y1" >>= decodeInt
      let x2 ← requireKey kvs "x2" >>= decodeInt
      let y2 ← requireKey kvs "y2" >>= decodeInt
      return { x1, y1, x2, y2 }
  | _ => Except.error "Vec2: expected object"

/-- Decode the `attributes` union: dispatch on `_attributes_type` of the
payload (the callable `Discriminator`), then validate the chosen variant.
The `custom` variant (`Annotated[dict, Tag('custom')]`) accepts the payload
mapping verbatim. -/
def decodeAttributes (j : Json) : Except String AnnotationAttributes :=
  match j with
  | Json.obj kvs =>
      match attributesType kvs with
      | "slice" =>
          (requireKey kvs "geometry" >>= decodeRect).map AnnotationAttributes.slice
      | "box" =>
          (requireKey kvs "geometry" >>= decodeRect).map AnnotationAttributes.box
      | "point" =>
          (requireKey kvs "geometry" >>= decodePoint).map AnnotationAttributes.point
      | "swipe" =>
          (requireKey kvs "geometry" >>= decodeVec2).map AnnotationAttributes.swipe
      | _ => Except.ok (AnnotationAttributes.custom kvs)
  | _ => Except.error "attributes: expected object"

/-- An optional `str` field: absent or `null` decodes to `none`. -/
def decodeOptStrField (kvs : List (String × Json)) (k : String) :
    Except String (Option String) :=
  match lookupKey kvs k with
  | none => Except.ok none
  | some Json.null => Except.ok none
  | some (Json.str s) => Except.ok (some s)
  | some _ => Except.error (k ++ ": expected str or null")

/-- An optional `dict` field: absent or `null` decodes to `none`. -/
def decodeOptObjField (kvs : List (String × Json)) (k : String) :
    Except String (Option (List (String × Json))) :=
  match lookupKey kvs k with
  | none => Except.ok none
  | some Json.null => Except.ok none
  | some (Json.obj fields) => Except.ok (some fields)
  | some _ => Except.error (k ++ ": expected object or null")

/-- The `uuid` field with its `default_factory`: absent yields the injected
fresh identifier. -/
def decodeUuidField (fresh : String) (kvs : List (String × Json)) :
    Except String String :=
  match lookupKey kvs "uuid" with
  | none => Except.ok fresh
  | some (Json.str s) => Except.ok s
  | some _ => Except.error "uuid: expected str"

def decodeAnnotation (fresh : String) (j : Json) : Except String Annotation :=
  match j with
  | Json.obj kvs => do
      let uuid ← decodeUuidField fresh kvs
      let name ← requireKey kvs "name" >>= decodeStr
      let display_name ← requireKey kvs "display_name" >>= decodeStr
      let description ← decodeOptStrField kvs "description"
      let attributes ← requireKey kvs "attributes" >>= decodeAttributes
      let extra ← decodeOptObjField kvs "extra"
      return { uuid, name, display_name, description, attributes, extra }
  | _ => Except.error "Annotation: expected object"

/-- Decode a list of annotations; the generator is indexed by position so each
absent `uuid` gets its own fresh value. -/
def decodeAnnotationList (g : Nat → String) (i : Nat) :
    List Json → Except String (List Annotation)
  | [] => Except.ok []
  | j :: rest => do
      let a ← decodeAnnotation (g i) j
      let as ← decodeAnnotationList g (i + 1) rest
      return a :: as

def decodeMeta (j : Json) : Except String Meta :=
  match j with
  | Json.obj kvs => do
      let version ← requireKey kvs "version" >>= decodeInt
      let tool ← requireKey kvs "tool" >>= decodeStr
      let tool_version ← requireKey kvs "tool_version" >>= decodeStr
      let created_at ← requireKey kvs "created_at" >>= decodeInt
      let updated_at ← requireKey kvs "updated_at" >>= decodeInt
      return { version, tool, tool_version, created_at, updated_at }
  | _ => Except.error "Meta: expected object"

def decodeImageFile (j : Json) : Except String ImageFile :=
  match j with
  | Json.obj kvs => do
      let width ← requireKey kvs "width" >>= decodeInt
      let height ← requireKey kvs "height" >>= decodeInt
      return { width, height }
  | _ => Except.error "ImageFile: expected object"

/-- `Document.model_validate_json` at the tree level.  The `annotations`
field has `default_factory=list`, so an absent key decodes to `[]`. -/
def decodeDocument (g : Nat → String) (j : Json) : Except String Document :=
  match j with
  | Json.obj kvs => do
      let type ← requireKey kvs "type" >>= decodeStr
      let meta ← requireKey kvs "meta" >>= decodeMeta
      let file ← requireKey kvs "file" >>= decodeImageFile
      let annotations ←
        match lookupKey kvs "annotations" with
        | none => Except.ok []
        | some (Json.arr js) => decodeAnnotationList g 0 js
        | some _ => Except.error "annotations: expected array"
      return { type, meta, file, annotations }
  | _ => Except.error "Document: expected object"

/-! ## Validity and round-trip -/

/-- A `custom` attributes payload the pydantic validator can actually hold:
its discriminator value is `custom` (a payload whose `type` were a built-in
literal would have been dispatched onto that built-in variant instead and
could never validate into the `dict` branch). -/
def attrValid : AnnotationAttributes → Bool
  | AnnotationAttributes.custom kvs => attributesType kvs == "custom"
  | _ => true

/-- A `Document` value the pydantic model can hold. -/
def docValid (d : Document) : Bool :=
  d.annotations.all fun a => attrValid a.attributes

theorem decodeRect_encodeRect (r : Rect) : decodeRect (encodeRect r) = Except.ok r := by
  cases r; rfl

theorem decodePoint_encodePoint (p : Point) :
    decodePoint (encodePoint p) = Except.ok p := by
  cases p; rfl

theorem decodeVec2_encodeVec2 (v : Vec2) :
    decodeVec2 (encodeVec2 v) = Except.ok v := by
  cases v; rfl

theorem decodeMeta_encodeMeta (m : Meta) : decodeMeta (encodeMeta m) = Except.ok m := by
  cases m; rfl

theorem decodeImageFile_encodeImageFile (f : ImageFile) :
    decodeImageFile (encodeImageFile f) = Except.ok f := by
  cases f; rfl

theorem decodeAttributes_encodeAttributes (a : AnnotationAttributes)
    (h : attrValid a = true) :
    decodeAttributes (encodeAttributes a) = Except.ok a := by
  cases a with
  | slice g => cases g; rfl
  | box g => cases g; rfl
  | point g => cases g; rfl
  | swipe g => cases g; rfl
  | custom kvs =>
      have h' : attributesType kvs = "custom" := by
        simpa [attrValid] using h
      simp [encodeAttributes, decodeAttributes, h']

theorem decodeAnnotation_encodeAnnotation (fresh : String) (a : Annotation)
    (h : attrValid a.attributes = true) :
    decodeAnnotation fresh ( encodeAnnotation a) = Except.ok a := by
  cases a with
  | mk uuid name display_name description attributes extra =>
      simp only [ encodeAnnotation, decodeAnnotation]
      cases description <;> cases extra <;>
        simp [decodeUuidField, requireKey, lookupKey, decodeStr,
          decodeOptStrField, decodeOptObjField, encodeOptStr, encodeOptObj,
          decodeAttributes_encodeAttributes _ h, bind, Except.bind, pure,
          Except.pure]

theorem decodeAnnotationList_map (g : Nat → String) (i : Nat)
    (l : List Annotation) (h : ∀ a ∈ l, attrValid a.attributes = true) :
    decodeAnnotationList g i (l.map encodeAnnotation) = Except.ok l := by
  induction l generalizing i with
  | nil => rfl
  | cons a rest ih =>
      have ha : attrValid a.attributes = true := h a (List.mem_cons_self a rest)
      have hrest : ∀ b ∈ rest, attrValid b.attributes = true := fun b hb =>
        h b (List.mem_cons_of_mem a hb)
      simp [decodeAnnotationList, decodeAnnotation_encodeAnnotation _ _ ha,
        ih (i + 1) hrest, bind, Except.bind, pure, Except.pure]

theorem decodeDocument_encodeDocument (g : Nat → String) (d : Document)
    (h : docValid d = true) :
    decodeDocument g (encodeDocument d) = Except.ok d := by
  have h' : ∀ a ∈ d.annotations, attrValid a.attributes = true := by
    simpa [docValid, List.all_eq_true] using h
  cases d with
  | mk type meta file annotations =>
      simp [encodeDocument, decodeDocument, requireKey, lookupKey, decodeStr,
        decodeMeta_encodeMeta, decodeImageFile_encodeImageFile,
        decodeAnnotationList_map g 0 annotations (by simpa using h'),
        bind, Except.bind, pure, Except.pure]

/-! ## Locations, file system, errors -/

/-- A file-system location at the granularity asset.py uses `pathlib.Path`:
a stem and an extension, with `with_suffix` replacing the extension. -/
structure Loc where
  stem : String
  ext : String
deriving DecidableEq

/-- `Path.with_suffix`. -/
def withSuffix (l : Loc) (s : String) : Loc :=
  { stem := l.stem, ext := s }

/-- Storage state: each location either holds no file (`none`) or a file whose
text is unparseable JSON (`some none`) or parses to a tree (`some (some j)`). -/
def Storage : Type := Loc → Option (Option Json)

/-- The decode-side failure a load can hit: `json.JSONDecodeError` for
ill-formed text, pydantic `ValidationError` for schema violations. -/
inductive LoadFailure where
  | jsonDecode : LoadFailure
  | validation (msg : String) : LoadFailure
deriving DecidableEq

/-- The exceptions the asset API raises. `fileNotFound` is Python's
`FileNotFoundError` (the spec taxonomy's `NotFoundError`); `raised f` is the
underlying decode/validation failure re-raised as such; `invalidFile f` is
`InvalidFileError` raised `from` the failure `f`; `duplicateName` is the
`ValueError` of `add_annotation` (spec: `DuplicateNameError`); `noTarget` is
the `ValueError` of `save` (spec: `NoTargetError`); `listRemoveValueError` is
the `ValueError` `list.remove` raises when its argument is absent. -/
inductive AssetError where
  | fileNotFound : AssetError
  | raised (f : LoadFailure) : AssetError
  | invalidFile (cause : LoadFailure) : AssetError
  | duplicateName (name : String) : AssetError
  | noTarget : AssetError
  | listRemoveValueError : AssetError
deriving DecidableEq

/-! ## The name index (a Python `dict` as an ordered association list) -/

/-- `dict.get`. -/
def mapLookup (m : List (String × Annotation)) (k : String) : Option Annotation :=
  match m with
  | [] => none
  | (k', v) :: rest => if k' = k then some v else mapLookup rest k

/-- `k in dict`. -/
def mapContains (m : List (String × Annotation)) (k : String) : Bool :=
  (mapLookup m k).isSome

/-- `m[k] = v`: overwrite in place when the key exists (a Python dict keeps
the key's insertion position), else append. -/
def mapInsert (m : List (String × Annotation)) (k : String) (v : Annotation) :
    List (String × Annotation) :=
  match m with
  | [] => [(k, v)]
  | (k', v') :: rest =>
      if k' = k then (k, v) :: rest else (k', v') :: mapInsert rest k v

/-- `dict.pop(k)`: drop the entry with key `k` (keys are unique in a dict; on
the lists our operations build, the first hit is the only one). -/
def mapErase (m : List (String × Annotation)) (k : String) :
    List (String × Annotation) :=
  match m with
  | [] => []
  | (k', v') :: rest => if k' = k then rest else (k', v') :: mapErase rest k

/-- `{ann.name: ann for ann in annotations}`: later entries overwrite earlier
ones with the same name. -/
def buildNameMap (anns : List Annotation) : List (String × Annotation) :=
  anns.foldl (fun m a => mapInsert m a.name a) []

/-- Python `list.remove(v)`: drop the first element equal to `v`, or raise
`ValueError` (here: `none`) when no element equals it. -/
def listRemoveFirst (v : Annotation) (l : List Annotation) :
    Option (List Annotation) :=
  match l with
  | [] => none
  | a :: rest =>
      if a = v then some rest
      else (listRemoveFirst v rest).map (a :: ·)

/-! ## The `ImageAsset` API (asset.py) -/

/-- The state an `ImageAsset` instance owns: `_doc`, `path`, `_name_map`. -/
structure AssetState where
  doc : Document
  path : Option Loc
  nameMap : List (String × Annotation)
deriving DecidableEq

namespace ImageAsset

/-- `ImageAsset.__init__`: bind the document and derive the name index. -/
def init (document : Document) (source_path : Option Loc) : AssetState :=
  { doc := document, path := source_path,
    nameMap := buildNameMap document.annotations }

/-- `ImageAsset.load`: derive the sidecar location, fail with
`FileNotFoundError` when it does not exist, and otherwise decode — on
`ValidationError` or `json.JSONDecodeError` the handler prints and re-raises
the underlying error itself (`raise e`). -/
def load (fs : Storage) (g : Nat → String) (image_path : Loc) :
    Except AssetError AssetState :=
  let meta_path := withSuffix image_path ".meta"
  match fs meta_path with
  | none => Except.error AssetError.fileNotFound
  | some none => Except.error (AssetError.raised LoadFailure.jsonDecode)
  | some (some j) =>
      match decodeDocument g j with
      | Except.error e =>
          Except.error (AssetError.raised (LoadFailure.validation e))
      | Except.ok doc => Except.ok (init doc (some meta_path))

/-- `ImageAsset.loads`: decode a JSON string (`none` = text that is not
well-formed JSON), raising `InvalidFileError from e` on either failure. -/
def loads (g : Nat → String) (content : Option Json)
    (source_path : Option Loc) : Except AssetError AssetState :=
  match content with
  | none => Except.error (AssetError.invalidFile LoadFailure.jsonDecode)
  | some j =>
      match decodeDocument g j with
      | Except.error e =>
          Except.error (AssetError.invalidFile (LoadFailure.validation e))
      | Except.ok doc => Except.ok (init doc source_path)

/-- `ImageAsset.create`.  `CLI_NAME` and `CLI_VERSION` come from the
`annota.cli` package (not among the given sources; per the spec they are
caller-supplied tool provenance), so they are arguments here; `now₁` and
`now₂` are the readings of the two separate `datetime.now(timezone.utc)`
calls on the `created_at=` and `updated_at=` lines. -/
def create (file_path : Loc) (image_width image_height : Int)
    (cliName cliVersion : String) (now₁ now₂ : Int) : AssetState :=
  init
    { type := "image"
      meta := { version := FORMAT_VERSION, tool := cliName,
                tool_version := cliVersion, created_at := now₁,
                updated_at := now₂ }
      file := { width := image_width, height := image_height }
      annotations := [] }
    (some (withSuffix file_path ".meta"))

/-- `ImageAsset.dumps`: refresh `meta.updated_at` to the clock reading unless
told not to, then serialize.  `indent` shapes only the whitespace of the
rendered text, which the tree-level embedding quotients away, so the
resulting tree does not depend on it. -/
def dumps (s : AssetState) (now : Int) (update_timestamp : Bool)
    (indent : Nat) : AssetState × Json :=
  let s' :=
    if update_timestamp then
      { s with doc := { s.doc with
          meta := { s.doc.meta with updated_at := now } } }
    else s
  (s', encodeDocument s'.doc)

/-- `ImageAsset.save`: the target is the explicit argument if given, else the
bound path; with neither it raises `ValueError` (spec: `NoTargetError`)
before anything is written; otherwise it writes `dumps()` (which refreshes
`meta.updated_at`) to the target, replacing that location's content.  The
triple is the raised error or unit, the state the instance is left in, and
the storage after the call. -/
def save (s : AssetState) (path : Option Loc) (fs : Storage) (now : Int) :
    Except AssetError Unit × AssetState × Storage :=
  match (match path with | some p => some p | none => s.path) with
  | none => (Except.error AssetError.noTarget, s, fs)
  | some target =>
      let r := dumps s now true 2
      (Except.ok (), r.1, fun l => if l = target then some (some r.2) else fs l)

/-- `ImageAsset.get_annotation`: the O(1) lookup through `_name_map`. -/
def get_annotation (s : AssetState) (name : String) : Option Annotation :=
  mapLookup s.nameMap name

/-- `ImageAsset.remove_annotation`: `None` when the name is not indexed;
otherwise pop the index entry and `list.remove` the annotation it holds.
The pair returns the result (or raised error) together with the state the
instance is left in, mutations before a raise included. -/
def remove_annotation (s : AssetState) (name : String) :
    Except AssetError (Option Annotation) × AssetState :=
  match mapLookup s.nameMap name with
  | none => (Except.ok none, s)
  | some ann =>
      let s₁ := { s with nameMap := mapErase s.nameMap name }
      match listRemoveFirst ann s₁.doc.annotations with
      | none => (Except.error AssetError.listRemoveValueError, s₁)
      | some anns =>
          let doc' := { s₁.doc with annotations := anns }
          (Except.ok (some ann), { s₁ with doc := doc' })

/-- `ImageAsset.add_annotation`: duplicate name with `overwrite=False` raises
`ValueError` (spec: `DuplicateNameError`) before any mutation; with
`overwrite=True` it first removes the existing entry; then it appends the
annotation and indexes it. -/
def add_annotation (s : AssetState) (a : Annotation) (overwrite : Bool) :
    Except AssetError Unit × AssetState :=
  if mapContains s.nameMap a.name then
    if overwrite then
      match remove_annotation s a.name with
      | (Except.error e, s₁) => (Except.error e, s₁)
      | (Except.ok _, s₁) =>
          let doc' := { s₁.doc with annotations := s₁.doc.annotations ++ [a] }
          (Except.ok (),
            { s₁ with doc := doc', nameMap := mapInsert s₁.nameMap a.name a })
    else (Except.error (AssetError.duplicateName a.name), s)
  else
    let doc' := { s.doc with annotations := s.doc.annotations ++ [a] }
    (Except.ok (),
      { s with doc := doc', nameMap := mapInsert s.nameMap a.name a })

end ImageAsset

/-! ## Operation sequences and the index-consistency invariant -/

/-- One mutation of the asset API. -/
inductive AssetOp where
  | add (a : Annotation) (overwrite : Bool) : AssetOp
  | remove (name : String) : AssetOp

/-- The state an operation leaves the instance in (also when it raises: the
code mutates in place, so the state after a raise is whatever had been
mutated before it). -/
def applyOp (s : AssetState) : AssetOp → AssetState
  | AssetOp.add a ow => (ImageAsset.add_annotation s a ow).2
  | AssetOp.remove n => (ImageAsset.remove_annotation s n).2

/-- The state after a finite sequence of add/remove operations. -/
def runOps (s : AssetState) (ops : List AssetOp) : AssetState :=
  ops.foldl applyOp s

/-- Index consistency: `_name_map` lists exactly the annotations of the
document keyed by their names in sequence order, and names are unique in the
sequence. -/
def WF (s : AssetState) : Prop :=
  s.nameMap = s.doc.annotations.map (fun a => (a.name, a)) ∧
  (s.doc.annotations.map (fun a => a.name)).Nodup

/-! ### Association-list lemmas -/

theorem mapLookup_map_eq_find (l : List Annotation) (n : String) :
    mapLookup (l.map fun a => (a.name, a)) n = l.find? (fun a => a.name == n) := by
  induction l with
  | nil => rfl
  | cons a l ih =>
      by_cases h : a.name = n
      · simp [mapLookup, h, List.find?_cons_of_pos]
      · rw [List.map_cons, mapLookup, if_neg h, List.find?_cons_of_neg _ (by simp [h]), ih]

theorem mapErase_map_eq_eraseP (l : List Annotation) (n : String) :
    mapErase (l.map fun a => (a.name, a)) n
      = (l.eraseP (fun a => a.name == n)).map (fun a => (a.name, a)) := by
  induction l with
  | nil => rfl
  | cons a l ih =>
      by_cases h : a.name = n
      · rw [List.map_cons, mapErase, if_pos h, List.eraseP_cons_of_pos (by simp [h])]
      · rw [List.map_cons, mapErase, if_neg h, List.eraseP_cons_of_neg (by simp [h]),
          List.map_cons, ih]

theorem listRemoveFirst_eq_eraseP (l : List Annotation) (n : String)
    (ann : Annotation) (h : l.find? (fun a => a.name == n) = some ann) :
    listRemoveFirst ann l = some (l.eraseP fun a => a.name == n) := by
  induction l with
  | nil => simp [List.find?] at h
  | cons a l ih =>
      by_cases ha : a.name = n
      · rw [List.find?_cons_of_pos _ (by simp [ha])] at h
        cases h
        rw [listRemoveFirst, if_pos rfl, List.eraseP_cons_of_pos (by simp [ha])]
      · rw [List.find?_cons_of_neg _ (by simp [ha])] at h
        have hann : ann.name = n := by simpa using List.find?_some h
        have hne : a = ann → False := fun he => ha (he ▸ hann)
        rw [listRemoveFirst, if_neg hne, List.eraseP_cons_of_neg (by simp [ha]), ih h]
        rfl

theorem mapLookup_single (k' : String) (v : Annotation) (k : String) :
    mapLookup [(k', v)] k = if k' = k then some v else none := rfl

theorem mapLookup_append_of_none (m₁ m₂ : List (String × Annotation)) (k : String)
    (h : mapLookup m₁ k = none) : mapLookup (m₁ ++ m₂) k = mapLookup m₂ k := by
  induction m₁ with
  | nil => rfl
  | cons p m ih =>
      cases p with
      | mk k' v' =>
          by_cases hk : k' = k
          · rw [mapLookup, if_pos hk] at h; cases h
          · rw [mapLookup, if_neg hk] at h
            rw [List.cons_append, mapLookup, if_neg hk, ih h]

theorem mapInsert_of_lookup_none (m : List (String × Annotation)) (k : String)
    (v : Annotation) (h : mapLookup m k = none) : mapInsert m k v = m ++ [(k, v)] := by
  induction m with
  | nil => rfl
  | cons p m ih =>
      cases p with
      | mk k' v' =>
          by_cases hk : k' = k
          · rw [mapLookup, if_pos hk] at h; cases h
          · rw [mapLookup, if_neg hk] at h
            rw [mapInsert, if_neg hk, List.cons_append, ih h]

theorem mapLookup_map_eq_none_iff (l : List Annotation) (n : String) :
    mapLookup (l.map fun a => (a.name, a)) n = none ↔
      n ∉ l.map fun a => a.name := by
  rw [mapLookup_map_eq_find, List.find?_eq_none]
  constructor
  · intro h hn
    obtain ⟨a, ha, hna⟩ := List.mem_map.mp hn
    exact absurd (by simp [hna]) (h a ha)
  · intro h a ha
    simp only [beq_iff_eq]
    intro hna
    exact h (List.mem_map.mpr ⟨a, ha, hna⟩)

theorem buildNameMap_aux (l : List Annotation) :
    ∀ m : List (String × Annotation),
      (∀ a ∈ l, mapLookup m a.name = none) →
      (l.map fun a => a.name).Nodup →
      l.foldl (fun m a => mapInsert m a.name a) m
        = m ++ (l.map fun a => (a.name, a)) := by
  induction l with
  | nil => intro m _ _; simp
  | cons a l ih =>
      intro m hm hnd
      have hnd' : (a.name ∉ l.map fun b => b.name) ∧
          (l.map fun b => b.name).Nodup := by
        simpa [List.nodup_cons] using hnd
      rw [List.foldl_cons, mapInsert_of_lookup_none m a.name a
        (hm a (List.mem_cons_self a l))]
      have hhead : a.name ∉ l.map fun b => b.name := hnd'.1
      rw [ih (m ++ [(a.name, a)]) ?_ hnd'.2]
      · simp
      · intro b hb
        rw [mapLookup_append_of_none _ _ _ (hm b (List.mem_cons_of_mem a hb)),
          mapLookup_single, if_neg]
        intro he
        exact hhead (List.mem_map.mpr ⟨b, hb, he.symm⟩)

theorem buildNameMap_eq_map (l : List Annotation)
    (h : (l.map fun a => a.name).Nodup) :
    buildNameMap l = l.map fun a => (a.name, a) := by
  simpa using buildNameMap_aux l [] (by intro a _; rfl) h

/-! ### Behaviour of the mutators on index-consistent states -/

theorem remove_annotation_spec (s : AssetState) (n : String)
    (hmap : s.nameMap = s.doc.annotations.map fun a => (a.name, a)) :
    ImageAsset.remove_annotation s n =
      match s.doc.annotations.find? (fun a => a.name == n) with
      | none => (Except.ok none, s)
      | some ann =>
          (Except.ok (some ann),
            { doc := { s.doc with
                annotations := s.doc.annotations.eraseP fun a => a.name == n },
              path := s.path,
              nameMap := (s.doc.annotations.eraseP fun a => a.name == n).map
                fun a => (a.name, a) }) := by
  unfold ImageAsset.remove_annotation
  rw [hmap, mapLookup_map_eq_find]
  cases hf : s.doc.annotations.find? (fun a => a.name == n) with
  | none => rfl
  | some ann =>
      simp only [listRemoveFirst_eq_eraseP _ _ _ hf, hmap, mapErase_map_eq_eraseP]

theorem add_annotation_dup_no_overwrite (s : AssetState) (a : Annotation)
    (h : mapContains s.nameMap a.name = true) :
    ImageAsset.add_annotation s a false
      = (Except.error (AssetError.duplicateName a.name), s) := by
  simp [ImageAsset.add_annotation, h]

theorem add_annotation_new (s : AssetState) (a : Annotation) (ow : Bool)
    (h : mapContains s.nameMap a.name = false) :
    ImageAsset.add_annotation s a ow
      = (Except.ok (),
          { doc := { s.doc with annotations := s.doc.annotations ++ [a] },
            path := s.path,
            nameMap := mapInsert s.nameMap a.name a }) := by
  simp [ImageAsset.add_annotation, h]

theorem mapContains_map_iff_mem (l : List Annotation) (n : String) :
    mapContains (l.map fun a => (a.name, a)) n = true ↔
      n ∈ l.map fun a => a.name := by
  unfold mapContains
  rw [Option.isSome_iff_exists]
  constructor
  · intro ⟨v, hv⟩
    by_contra hmem
    rw [(mapLookup_map_eq_none_iff l n).mpr hmem] at hv
    cases hv
  · intro hmem
    cases hl : mapLookup (l.map fun a => (a.name, a)) n with
    | some v => exact ⟨v, rfl⟩
    | none => exact absurd ((mapLookup_map_eq_none_iff l n).mp hl) (not_not.mpr hmem)

theorem name_not_mem_eraseP (l : List Annotation) (n : String)
    (hnd : (l.map fun a => a.name).Nodup) (old : Annotation)
    (hol : old ∈ l) (hon : old.name = n) :
    n ∉ (l.eraseP fun a => a.name == n).map fun a => a.name := by
  obtain ⟨c, l₁, l₂, hl₁, hc, hl, he⟩ :=
    List.exists_of_eraseP hol (p := fun a => a.name == n) (by simp [hon])
  rw [he]
  have hcn : c.name = n := by simpa using hc
  have hnd' : (l₁.map fun a => a.name).Nodup ∧ c.name ∉ l₁.map (fun a => a.name) ∧
      c.name ∉ l₂.map (fun a => a.name) ∧ (l₂.map fun a => a.name).Nodup := by
    have := hl ▸ hnd
    simp only [List.map_append, List.map_cons, List.nodup_append,
      List.nodup_cons, List.disjoint_cons_right, List.mem_cons] at this
    tauto
  intro hmem
  rw [List.map_append, List.mem_append] at hmem
  rcases hmem with hm₁ | hm₂
  · rcases List.mem_map.mp hm₁ with ⟨b, hb₁, hbn⟩
    exact absurd (by simp [hbn]) (hl₁ b hb₁)
  · rcases List.mem_map.mp hm₂ with ⟨b, hb₂, hbn⟩
    exact hnd'.2.2.1 (by
      rw [hcn]
      exact List.mem_map.mpr ⟨b, hb₂, hbn⟩)

theorem add_annotation_overwrite_spec (s : AssetState) (a : Annotation)
    (hmap : s.nameMap = s.doc.annotations.map fun b => (b.name, b))
    (hnd : (s.doc.annotations.map fun b => b.name).Nodup)
    (old : Annotation)
    (hfind : s.doc.annotations.find? (fun b => b.name == a.name) = some old) :
    ImageAsset.add_annotation s a true
      = (Except.ok (),
          { doc := { s.doc with
              annotations :=
                (s.doc.annotations.eraseP fun b => b.name == a.name) ++ [a] },
            path := s.path,
            nameMap :=
              ((s.doc.annotations.eraseP fun b => b.name == a.name) ++ [a]).map
                fun b => (b.name, b) }) := by
  have hmem : a.name ∈ s.doc.annotations.map fun b => b.name := by
    refine List.mem_map.mpr ⟨old, List.mem_of_find?_eq_some hfind, ?_⟩
    simpa using List.find?_some hfind
  have hc : mapContains s.nameMap a.name = true := by
    rw [hmap]; exact (mapContains_map_iff_mem _ _).mpr hmem
  have hnone : mapLookup
      ((s.doc.annotations.eraseP fun b => b.name == a.name).map
        fun b => (b.name, b)) a.name = none :=
    (mapLookup_map_eq_none_iff _ _).mpr
      (name_not_mem_eraseP _ _ hnd old (List.mem_of_find?_eq_some hfind)
        (by simpa using List.find?_some hfind))
  rw [ImageAsset.add_annotation, if_pos hc, if_pos rfl,
    remove_annotation_spec s a.name hmap, hfind]
  simp only [mapInsert_of_lookup_none _ _ _ hnone, List.map_append, List.map_cons,
    List.map_nil]

theorem nodup_names_append_single (l : List Annotation) (a : Annotation)
    (hnd : (l.map fun b => b.name).Nodup) (hmem : a.name ∉ l.map fun b => b.name) :
    ((l ++ [a]).map fun b => b.name).Nodup := by
  rw [List.map_append, List.map_cons, List.map_nil]
  simp only [List.nodup_append, List.nodup_cons]
  refine ⟨hnd, by simp, ?_⟩
  intro x hx hxa
  rcases List.mem_singleton.mp hxa with rfl
  exact hmem hx

theorem WF_applyOp (s : AssetState) (op : AssetOp) (h : WF s) :
    WF (applyOp s op) := by
  obtain ⟨hmap, hnd⟩ := h
  cases op with
  | remove n =>
      show WF (ImageAsset.remove_annotation s n).2
      rw [remove_annotation_spec s n hmap]
      cases hf : s.doc.annotations.find? (fun a => a.name == n) with
      | none => exact ⟨hmap, hnd⟩
      | some ann =>
          refine ⟨rfl, ?_⟩
          exact ((List.eraseP_sublist _).map _).nodup hnd
  | add a ow =>
      show WF (ImageAsset.add_annotation s a ow).2
      cases hc : mapContains s.nameMap a.name with
      | false =>
          rw [add_annotation_new s a ow hc]
          have hlook : mapLookup s.nameMap a.name = none := by
            rcases hl : mapLookup s.nameMap a.name with _ | v
            · rfl
            · rw [mapContains, hl] at hc; cases hc
          have hmem : a.name ∉ s.doc.annotations.map fun b => b.name :=
            (mapLookup_map_eq_none_iff _ _).mp (hmap ▸ hlook)
          refine ⟨?_, nodup_names_append_single _ _ hnd hmem⟩
          rw [mapInsert_of_lookup_none _ _ _ hlook, hmap]
          simp
      | true =>
          cases ow with
          | false => rw [add_annotation_dup_no_overwrite s a hc]; exact ⟨hmap, hnd⟩
          | true =>
              have hmem : a.name ∈ s.doc.annotations.map fun b => b.name :=
                (mapContains_map_iff_mem _ _).mp (hmap ▸ hc)
              have hex : ∃ x ∈ s.doc.annotations, (fun b => b.name == a.name) x := by
                rcases List.mem_map.mp hmem with ⟨b, hb, hbn⟩
                exact ⟨b, hb, by simp [hbn]⟩
              rcases hf : s.doc.annotations.find? (fun b => b.name == a.name) with
                _ | old
              · rw [List.find?_eq_none] at hf
                rcases hex with ⟨x, hx, hpx⟩
                exact absurd hpx (hf x hx)
              · rw [add_annotation_overwrite_spec s a hmap hnd old hf]
                refine ⟨rfl, nodup_names_append_single _ _
                  (((List.eraseP_sublist _).map _).nodup hnd)
                  (name_not_mem_eraseP _ _ hnd old (List.mem_of_find?_eq_some hf)
                    (by simpa using List.find?_some hf))⟩

theorem WF_runOps (s : AssetState) (ops : List AssetOp) (h : WF s) :
    WF (runOps s ops) := by
  induction ops generalizing s with
  | nil => exact h
  | cons op ops ih => exact ih _ (WF_applyOp s op h)

/-! ## Claim theorems -/

/-- A concrete valid document used by the witnesses. -/
def sampleDoc : Document :=
  { type := "image"
    meta := { version := 1, tool := "annota", tool_version := "0.1.0",
              created_at := 100, updated_at := 200 }
    file := { width := 1920, height := 1080 }
    annotations :=
      [ { uuid := "u1", name := "btn_ok", display_name := "OK",
          description := none,
          attributes := AnnotationAttributes.box
            { x := 0, y := 0, width := 10, height := 5 },
          extra := none },
        { uuid := "u2", name := "ev_custom", display_name := "Custom",
          description := some "a custom event",
          attributes := AnnotationAttributes.custom
            [("type", Json.str "unknown_tag"), ("foo", Json.str "bar")],
          extra := some [("k", Json.num 1)] } ] }

/-- A concrete asset over `sampleDoc`. -/
def sampleAsset : AssetState :=
  ImageAsset.init sampleDoc (some { stem := "img", ext := ".png" })

/-- C1: for every valid document, `loads` of the text `dumps` produces with
`update_timestamp=False` yields an equal document, and the decodes of the
compact (`indent=0`) and indented (`indent=4`) encodings are structurally
equal. -/
theorem roundtrip_loads_dumps (s : AssetState) (now : Int) (i : Nat)
    (g g' : Nat → String) (h : docValid s.doc = true) :
    (∃ t, ImageAsset.loads g (some (ImageAsset.dumps s now false i).2) none
        = Except.ok t ∧ t.doc = s.doc) ∧
    decodeDocument g (ImageAsset.dumps s now false 0).2
      = decodeDocument g' (ImageAsset.dumps s now false 4).2 := by
  have hdump : ∀ j : Nat,
      (ImageAsset.dumps s now false j).2 = encodeDocument s.doc := fun _ => rfl
  constructor
  · refine ⟨ImageAsset.init s.doc none, ?_, rfl⟩
    rw [hdump]
    simp only [ImageAsset.loads, decodeDocument_encodeDocument g s.doc h]
  · rw [hdump, hdump, decodeDocument_encodeDocument g s.doc h,
      decodeDocument_encodeDocument g' s.doc h]

theorem roundtrip_loads_dumps_witness :
    docValid sampleAsset.doc = true ∧
    ((∃ t, ImageAsset.loads (fun _ => "f")
          (some (ImageAsset.dumps sampleAsset 555 false 2).2) none
        = Except.ok t ∧ t.doc = sampleAsset.doc) ∧
      decodeDocument (fun _ => "f") (ImageAsset.dumps sampleAsset 555 false 0).2
        = decodeDocument (fun _ => "f2")
            (ImageAsset.dumps sampleAsset 555 false 4).2) :=
  ⟨by decide,
    roundtrip_loads_dumps sampleAsset 555 2 (fun _ => "f") (fun _ => "f2")
      (by decide)⟩

/-- C2: decoding an attributes payload dispatches only on the `type` field:
the discriminator reads nothing but the `type` key; a built-in tag can only
produce its own geometry variant (the concrete box example does); and any
payload whose `type` value lies outside the four built-in literals decodes to
the `custom` variant holding the payload verbatim, `type` key and unknown
keys included. -/
theorem attributes_discriminator_correct (kvs kvs' : List (String × Json)) :
    (decodeAttributes (Json.obj [("type", Json.str "box"),
        ("geometry", Json.obj [("x", Json.num 0), ("y", Json.num 0),
          ("width", Json.num 10), ("height", Json.num 5)])])
      = Except.ok (AnnotationAttributes.box
          { x := 0, y := 0, width := 10, height := 5 })) ∧
    (lookupKey kvs "type" = lookupKey kvs' "type" →
      attributesType kvs = attributesType kvs') ∧
    (∀ t, lookupKey kvs "type" = some (Json.str t) →
      ¬(t = "slice" ∨ t = "box" ∨ t = "point" ∨ t = "swipe") →
      decodeAttributes (Json.obj kvs)
        = Except.ok (AnnotationAttributes.custom kvs)) ∧
    (attributesType kvs = "custom" →
      decodeAttributes (Json.obj kvs)
        = Except.ok (AnnotationAttributes.custom kvs)) ∧
    (∀ r, attributesType kvs = "slice" →
      decodeAttributes (Json.obj kvs) = Except.ok r →
      ∃ geom, r = AnnotationAttributes.slice geom) ∧
    (∀ r, attributesType kvs = "box" →
      decodeAttributes (Json.obj kvs) = Except.ok r →
      ∃ geom, r = AnnotationAttributes.box geom) ∧
    (∀ r, attributesType kvs = "point" →
      decodeAttributes (Json.obj kvs) = Except.ok r →
      ∃ geom, r = AnnotationAttributes.point geom) ∧
    (∀ r, attributesType kvs = "swipe" →
      decodeAttributes (Json.obj kvs) = Except.ok r →
      ∃ geom, r = AnnotationAttributes.swipe geom) := by
  refine ⟨rfl, ?_, ?_, ?_, ?_, ?_, ?_, ?_⟩
  · intro h
    unfold attributesType
    rw [h]
  · intro t ht hnot
    have hc : attributesType kvs = "custom" := by
      simp only [attributesType, ht]
      rw [if_neg hnot]
    simp [decodeAttributes, hc]
  · intro hc
    simp [decodeAttributes, hc]
  · intro r hc hr
    rw [decodeAttributes, hc] at hr
    rcases hgeo : requireKey kvs "geometry" >>= decodeRect with e | geom <;>
      rw [hgeo] at hr <;> simp [Except.map] at hr
    exact ⟨geom, hr.symm⟩
  · intro r hc hr
    rw [decodeAttributes, hc] at hr
    rcases hgeo : requireKey kvs "geometry" >>= decodeRect with e | geom <;>
      rw [hgeo] at hr <;> simp [Except.map] at hr
    exact ⟨geom, hr.symm⟩
  · intro r hc hr
    rw [decodeAttributes, hc] at hr
    rcases hgeo : requireKey kvs "geometry" >>= decodePoint with e | geom <;>
      rw [hgeo] at hr <;> simp [Except.map] at hr
    exact ⟨geom, hr.symm⟩
  · intro r hc hr
    rw [decodeAttributes, hc] at hr
    rcases hgeo : requireKey kvs "geometry" >>= decodeVec2 with e | geom <;>
      rw [hgeo] at hr <;> simp [Except.map] at hr
    exact ⟨geom, hr.symm⟩

theorem attributes_discriminator_correct_witness :
    (attributesType [("type", Json.str "unknown_tag"), ("foo", Json.str "bar")]
      = attributesType [("type", Json.str "unknown_tag"), ("x", Json.num 3)]) ∧
    (decodeAttributes (Json.obj
        [("type", Json.str "unknown_tag"), ("foo", Json.str "bar")])
      = Except.ok (AnnotationAttributes.custom
          [("type", Json.str "unknown_tag"), ("foo", Json.str "bar")])) ∧
    (∃ geom, AnnotationAttributes.box { x := 0, y := 0, width := 10, height := 5 }
      = AnnotationAttributes.box geom) := by
  refine ⟨?_, ?_, ?_⟩
  · exact (attributes_discriminator_correct
      [("type", Json.str "unknown_tag"), ("foo", Json.str "bar")]
      [("type", Json.str "unknown_tag"), ("x", Json.num 3)]).2.1 rfl
  · exact (attributes_discriminator_correct
      [("type", Json.str "unknown_tag"), ("foo", Json.str "bar")] []).2.2.1
      "unknown_tag" rfl (by decide)
  · exact (attributes_discriminator_correct
      [("type", Json.str "box"),
        ("geometry", Json.obj [("x", Json.num 0), ("y", Json.num 0),
          ("width", Json.num 10), ("height", Json.num 5)])] []).2.2.2.2.2.1
      (AnnotationAttributes.box { x := 0, y := 0, width := 10, height := 5 })
      rfl rfl

/-- A storage holding one sidecar `img.meta` whose text is not well-formed
JSON. -/
def brokenStorage : Storage := fun l =>
  if l = { stem := "img", ext := ".meta" } then some none else none

/-- C3 counterexample: on a sidecar that exists but holds malformed text,
`load` fails with the re-raised underlying `json.JSONDecodeError`, not with
`InvalidFileError` wrapping it (the except-block prints and does `raise e`;
only `loads` raises `InvalidFileError`). -/
theorem load_does_not_wrap_in_invalidFile :
    ImageAsset.load brokenStorage (fun _ => "u") { stem := "img", ext := ".png" }
      = Except.error (AssetError.raised LoadFailure.jsonDecode) ∧
    ImageAsset.load brokenStorage (fun _ => "u") { stem := "img", ext := ".png" }
      ≠ Except.error (AssetError.invalidFile LoadFailure.jsonDecode) := by
  refine ⟨rfl, ?_⟩
  intro h
  rw [show ImageAsset.load brokenStorage (fun _ => "u")
      { stem := "img", ext := ".png" }
      = Except.error (AssetError.raised LoadFailure.jsonDecode) from rfl] at h
  cases h

/-- C3 amended: `load` fails with `FileNotFoundError` when the derived
sidecar does not exist; on a sidecar with malformed text or schema-violating
content it re-raises the underlying `json.JSONDecodeError` or
`ValidationError` itself; otherwise it returns an asset bound to the sidecar
location.  The `InvalidFileError` wrapper is raised by the `loads`
string-decoding path, not by `load`. -/
theorem load_and_loads_error_paths (fs : Storage) (g : Nat → String) (p : Loc) :
    (fs (withSuffix p ".meta") = none →
      ImageAsset.load fs g p = Except.error AssetError.fileNotFound) ∧
    (fs (withSuffix p ".meta") = some none →
      ImageAsset.load fs g p
        = Except.error (AssetError.raised LoadFailure.jsonDecode)) ∧
    (∀ j e, fs (withSuffix p ".meta") = some (some j) →
      decodeDocument g j = Except.error e →
      ImageAsset.load fs g p
        = Except.error (AssetError.raised (LoadFailure.validation e))) ∧
    (∀ j d, fs (withSuffix p ".meta") = some (some j) →
      decodeDocument g j = Except.ok d →
      ImageAsset.load fs g p
        = Except.ok (ImageAsset.init d (some (withSuffix p ".meta")))) ∧
    (∀ src, ImageAsset.loads g none src
        = Except.error (AssetError.invalidFile LoadFailure.jsonDecode)) ∧
    (∀ j e src, decodeDocument g j = Except.error e →
      ImageAsset.loads g (some j) src
        = Except.error (AssetError.invalidFile (LoadFailure.validation e))) := by
  refine ⟨?_, ?_, ?_, ?_, ?_, ?_⟩
  · intro h; simp only [ImageAsset.load, h]
  · intro h; simp only [ImageAsset.load, h]
  · intro j e hj hd; simp only [ImageAsset.load, hj, hd]
  · intro j d hj hd; simp only [ImageAsset.load, hj, hd]
  · intro src; rfl
  · intro j e src hd; simp only [ImageAsset.loads, hd]

/-- A storage with a well-formed sidecar whose content violates the schema
(`width` is a string), and a storage with no sidecar at all. -/
def badSchemaStorage : Storage := fun l =>
  if l = { stem := "img", ext := ".meta" } then
    some (some (Json.obj [("type", Json.str "image"),
      ("meta", Json.obj [("version", Json.num 1), ("tool", Json.str "t"),
        ("tool_version", Json.str "1"), ("created_at", Json.num 0),
        ("updated_at", Json.num 0)]),
      ("file", Json.obj [("width", Json.str "not-a-number"),
        ("height", Json.num 2)]),
      ("annotations", Json.arr [])]))
  else none

theorem load_and_loads_error_paths_witness :
    (ImageAsset.load (fun _ => none) (fun _ => "u") { stem := "img", ext := ".png" }
      = Except.error AssetError.fileNotFound) ∧
    (ImageAsset.load brokenStorage (fun _ => "u") { stem := "img", ext := ".png" }
      = Except.error (AssetError.raised LoadFailure.jsonDecode)) ∧
    (ImageAsset.load badSchemaStorage (fun _ => "u") { stem := "img", ext := ".png" }
      = Except.error (AssetError.raised (LoadFailure.validation "expected int"))) ∧
    (ImageAsset.loads (fun _ => "u") none none
      = Except.error (AssetError.invalidFile LoadFailure.jsonDecode)) := by
  refine ⟨?_, ?_, ?_, ?_⟩
  · exact (load_and_loads_error_paths (fun _ => none) (fun _ => "u")
      { stem := "img", ext := ".png" }).1 rfl
  · exact (load_and_loads_error_paths brokenStorage (fun _ => "u")
      { stem := "img", ext := ".png" }).2.1 rfl
  · exact (load_and_loads_error_paths badSchemaStorage (fun _ => "u")
      { stem := "img", ext := ".png" }).2.2.1 _ "expected int" rfl rfl
  · exact (load_and_loads_error_paths (fun _ => none) (fun _ => "u")
      { stem := "img", ext := ".png" }).2.2.2.2.1 none

/-- `find?` on names after erasing and appending: the appended annotation is
found under its own name. -/
theorem find_name_append_erased (l : List Annotation) (a : Annotation)
    (hnone : a.name ∉ (l.eraseP fun b => b.name == a.name).map fun b => b.name) :
    ((l.eraseP fun b => b.name == a.name) ++ [a]).find? (fun b => b.name == a.name)
      = some a := by
  rw [List.find?_append]
  have h₁ : (l.eraseP fun b => b.name == a.name).find? (fun b => b.name == a.name)
      = none := by
    rw [List.find?_eq_none]
    intro x hx hpx
    exact hnone (List.mem_map.mpr ⟨x, hx, by simpa using hpx⟩)
  rw [h₁]
  simp

/-- C4: adding an annotation whose name is already present with
`overwrite=False` raises `ValueError` (the spec taxonomy's
`DuplicateNameError`) and leaves the state — annotation sequence, name index,
bound path — exactly as it was. -/
theorem add_duplicate_raises_unchanged (s : AssetState) (a : Annotation)
    (h : mapContains s.nameMap a.name = true) :
    ImageAsset.add_annotation s a false
      = (Except.error (AssetError.duplicateName a.name), s) ∧
    (ImageAsset.add_annotation s a false).2.doc.annotations = s.doc.annotations ∧
    (ImageAsset.add_annotation s a false).2.nameMap = s.nameMap ∧
    (ImageAsset.add_annotation s a false).2.path = s.path := by
  have hs := add_annotation_dup_no_overwrite s a h
  exact ⟨hs, by rw [hs], by rw [hs], by rw [hs]⟩

/-- A concrete annotation whose name collides with one of `sampleAsset`. -/
def dupNameAnn : Annotation :=
  { uuid := "u9", name := "btn_ok", display_name := "Again",
    description := none,
    attributes := AnnotationAttributes.point { x := 1, y := 2 }, extra := none }

theorem add_duplicate_raises_unchanged_witness :
    mapContains sampleAsset.nameMap dupNameAnn.name = true ∧
    ImageAsset.add_annotation sampleAsset dupNameAnn false
      = (Except.error (AssetError.duplicateName "btn_ok"), sampleAsset) :=
  ⟨by decide, (add_duplicate_raises_unchanged sampleAsset dupNameAnn (by decide)).1⟩

/-- C5: adding with `overwrite=True` over an existing name first removes the
entry with that name, appends the new annotation at the end of the sequence,
records it in the index, and keeps the sequence length unchanged. -/
theorem add_overwrite_replaces_at_end (s : AssetState) (a : Annotation)
    (hwf : WF s) (hc : mapContains s.nameMap a.name = true) :
    (ImageAsset.add_annotation s a true).1 = Except.ok () ∧
    (ImageAsset.add_annotation s a true).2.doc.annotations
      = (s.doc.annotations.eraseP fun b => b.name == a.name) ++ [a] ∧
    (ImageAsset.add_annotation s a true).2.doc.annotations.length
      = s.doc.annotations.length ∧
    ImageAsset.get_annotation (ImageAsset.add_annotation s a true).2 a.name
      = some a := by
  obtain ⟨hmap, hnd⟩ := hwf
  have hmem : a.name ∈ s.doc.annotations.map fun b => b.name :=
    (mapContains_map_iff_mem _ _).mp (hmap ▸ hc)
  rcases List.mem_map.mp hmem with ⟨b₀, hb₀, hb₀n⟩
  rcases hf : s.doc.annotations.find? (fun b => b.name == a.name) with _ | old
  · rw [List.find?_eq_none] at hf
    exact absurd (by simp [hb₀n]) (hf b₀ hb₀)
  · have hspec := add_annotation_overwrite_spec s a hmap hnd old hf
    have hol : old ∈ s.doc.annotations := List.mem_of_find?_eq_some hf
    have hpold : old.name = a.name := by simpa using List.find?_some hf
    have hnone := name_not_mem_eraseP s.doc.annotations a.name hnd old hol hpold
    refine ⟨by rw [hspec], by rw [hspec], ?_, ?_⟩
    · rw [hspec]
      have hlen := List.length_eraseP_of_mem hol
        (p := fun b => b.name == a.name) (by simp [hpold])
      have hpos : 0 < s.doc.annotations.length := List.length_pos_of_mem hol
      simp only [List.length_append, List.length_cons, List.length_nil, hlen]
      omega
    · show mapLookup (ImageAsset.add_annotation s a true).2.nameMap a.name = some a
      rw [hspec]
      show mapLookup (((s.doc.annotations.eraseP fun b => b.name == a.name)
        ++ [a]).map fun b => (b.name, b)) a.name = some a
      rw [mapLookup_map_eq_find, find_name_append_erased _ _ hnone]

theorem add_overwrite_replaces_at_end_witness :
    WF sampleAsset ∧ mapContains sampleAsset.nameMap dupNameAnn.name = true ∧
    ((ImageAsset.add_annotation sampleAsset dupNameAnn true).1 = Except.ok () ∧
      (ImageAsset.add_annotation sampleAsset dupNameAnn true).2.doc.annotations
        = (sampleAsset.doc.annotations.eraseP
            fun b => b.name == dupNameAnn.name) ++ [dupNameAnn] ∧
      (ImageAsset.add_annotation sampleAsset dupNameAnn true).2.doc.annotations.length
        = sampleAsset.doc.annotations.length ∧
      ImageAsset.get_annotation
          (ImageAsset.add_annotation sampleAsset dupNameAnn true).2 dupNameAnn.name
        = some dupNameAnn) :=
  ⟨by constructor <;> decide, by decide,
    add_overwrite_replaces_at_end sampleAsset dupNameAnn
      ⟨by decide, by decide⟩ (by decide)⟩

/-- C6: `remove_annotation` never raises on an index-consistent state: a
missing name returns `None` with the state untouched; an existing name
removes exactly that entry from the sequence and from the index, returns it,
and a subsequent `get_annotation` on the name yields `None`. -/
theorem remove_never_fails (s : AssetState) (n : String) (hwf : WF s) :
    (∃ v, (ImageAsset.remove_annotation s n).1 = Except.ok v) ∧
    (ImageAsset.get_annotation s n = none →
      ImageAsset.remove_annotation s n = (Except.ok none, s)) ∧
    (∀ ann, ImageAsset.get_annotation s n = some ann →
      ann ∈ s.doc.annotations ∧ ann.name = n ∧
      (ImageAsset.remove_annotation s n).1 = Except.ok (some ann) ∧
      (ImageAsset.remove_annotation s n).2.doc.annotations
        = s.doc.annotations.eraseP (fun b => b.name == n) ∧
      (ImageAsset.remove_annotation s n).2.nameMap
        = (s.doc.annotations.eraseP fun b => b.name == n).map
            (fun b => (b.name, b)) ∧
      (ImageAsset.remove_annotation s n).2.path = s.path ∧
      (ImageAsset.remove_annotation s n).2.doc.annotations.length + 1
        = s.doc.annotations.length ∧
      ImageAsset.get_annotation (ImageAsset.remove_annotation s n).2 n
        = none) := by
  obtain ⟨hmap, hnd⟩ := hwf
  have hget : ImageAsset.get_annotation s n
      = s.doc.annotations.find? fun b => b.name == n := by
    unfold ImageAsset.get_annotation
    rw [hmap, mapLookup_map_eq_find]
  rcases hf : s.doc.annotations.find? (fun b => b.name == n) with _ | ann
  · have hrem : ImageAsset.remove_annotation s n = (Except.ok none, s) := by
      rw [remove_annotation_spec s n hmap, hf]
    refine ⟨⟨none, by rw [hrem]⟩, fun _ => hrem, ?_⟩
    intro ann hann
    rw [hget, hf] at hann
    cases hann
  · have hann : ann ∈ s.doc.annotations := List.mem_of_find?_eq_some hf
    have hname : ann.name = n := by simpa using List.find?_some hf
    have hrem := remove_annotation_spec s n hmap
    rw [hf] at hrem
    refine ⟨⟨some ann, by rw [hrem]⟩, ?_, ?_⟩
    · intro hnone
      rw [hget, hf] at hnone
      cases hnone
    · intro ann' hann'
      rw [hget, hf] at hann'
      cases hann'
      have hlen := List.length_eraseP_of_mem hann
        (p := fun b => b.name == n) (by simp [hname])
      have hpos : 0 < s.doc.annotations.length := List.length_pos_of_mem hann
      refine ⟨hann, hname, by rw [hrem], by rw [hrem], by rw [hrem],
        by rw [hrem], ?_, ?_⟩
      · rw [hrem]
        show (s.doc.annotations.eraseP fun b => b.name == n).length + 1
          = s.doc.annotations.length
        omega
      · rw [hrem]
        show mapLookup ((s.doc.annotations.eraseP fun b => b.name == n).map
          fun b => (b.name, b)) n = none
        rw [mapLookup_map_eq_none_iff]
        exact name_not_mem_eraseP _ _ hnd ann hann hname

theorem remove_never_fails_witness :
    WF sampleAsset ∧
    (ImageAsset.remove_annotation sampleAsset "missing" = (Except.ok none, sampleAsset)) ∧
    (∃ v, (ImageAsset.remove_annotation sampleAsset "btn_ok").1 = Except.ok v) :=
  ⟨⟨by decide, by decide⟩,
    (remove_never_fails sampleAsset "missing" ⟨by decide, by decide⟩).2.1 (by decide),
    (remove_never_fails sampleAsset "btn_ok" ⟨by decide, by decide⟩).1⟩

/-- On a list with pairwise-distinct names, `find?` by an element's name
returns that element. -/
theorem find_name_self (l : List Annotation)
    (hnd : (l.map fun b => b.name).Nodup) (a : Annotation) (ha : a ∈ l) :
    l.find? (fun b => b.name == a.name) = some a := by
  induction l with
  | nil => cases ha
  | cons b l ih =>
      have hnd' : (b.name ∉ l.map fun c => c.name) ∧
          (l.map fun c => c.name).Nodup := by
        simpa [List.nodup_cons] using hnd
      rcases List.mem_cons.mp ha with rfl | ha'
      · rw [List.find?_cons_of_pos _ (by simp)]
      · by_cases hbn : b.name = a.name
        · exact absurd (List.mem_map.mpr ⟨a, ha', hbn.symm⟩) hnd'.1
        · rw [List.find?_cons_of_neg _ (by simp [hbn]), ih hnd'.2 ha']

/-- C7: starting from an index-consistent asset, after any finite sequence of
add/remove operations the index keys are exactly the annotation names in
sequence order, every index entry maps its key to the annotation of the
sequence bearing that name, every annotation is indexed under its name, and
no name occurs twice in the sequence. -/
theorem index_consistent_after_ops (s : AssetState) (ops : List AssetOp)
    (h : WF s) :
    ((runOps s ops).nameMap.map Prod.fst
      = (runOps s ops).doc.annotations.map fun a => a.name) ∧
    (∀ k ann, mapLookup (runOps s ops).nameMap k = some ann →
      ann ∈ (runOps s ops).doc.annotations ∧ ann.name = k) ∧
    (∀ a ∈ (runOps s ops).doc.annotations,
      mapLookup (runOps s ops).nameMap a.name = some a) ∧
    ((runOps s ops).doc.annotations.map fun a => a.name).Nodup := by
  obtain ⟨hmap, hnd⟩ := WF_runOps s ops h
  refine ⟨?_, ?_, ?_, hnd⟩
  · rw [hmap]; simp
  · intro k ann hk
    rw [hmap, mapLookup_map_eq_find] at hk
    exact ⟨List.mem_of_find?_eq_some hk, by simpa using List.find?_some hk⟩
  · intro a ha
    rw [hmap, mapLookup_map_eq_find]
    exact find_name_self _ hnd a ha

/-- A concrete operation sequence for the C7 witness. -/
def demoOps : List AssetOp :=
  [AssetOp.add dupNameAnn true, AssetOp.remove "ev_custom",
    AssetOp.remove "missing", AssetOp.add
      { uuid := "u3", name := "sw", display_name := "Swipe",
        description := none,
        attributes := AnnotationAttributes.swipe
          { x1 := 0, y1 := 0, x2 := 5, y2 := 5 }, extra := none } false]

theorem index_consistent_after_ops_witness :
    WF sampleAsset ∧
    ((runOps sampleAsset demoOps).nameMap.map Prod.fst
      = (runOps sampleAsset demoOps).doc.annotations.map fun a => a.name) ∧
    ((runOps sampleAsset demoOps).doc.annotations.map fun a => a.name).Nodup :=
  ⟨⟨by decide, by decide⟩,
    (index_consistent_after_ops sampleAsset demoOps ⟨by decide, by decide⟩).1,
    (index_consistent_after_ops sampleAsset demoOps ⟨by decide, by decide⟩).2.2.2⟩

/-- C8 counterexample: `create` reads `datetime.now(timezone.utc)` once on
the `created_at=` line and again on the `updated_at=` line; with distinct
clock readings the two timestamps of the fresh document differ, so
`created_at == updated_at` is not guaranteed. -/
theorem create_timestamps_not_equal :
    (ImageAsset.create { stem := "level1", ext := ".png" } 1920 1080
        "annota" "0.1.0" 0 1).doc.meta.created_at
      ≠ (ImageAsset.create { stem := "level1", ext := ".png" } 1920 1080
        "annota" "0.1.0" 0 1).doc.meta.updated_at := by decide

/-- C8 amended: `create` builds a document with `type="image"`, the given
file dimensions, an empty annotation sequence, `meta.version` equal to
`FORMAT_VERSION = 1`, the caller-supplied tool provenance, `created_at` and
`updated_at` equal to the respective readings of its two consecutive clock
calls — hence equal whenever those readings coincide — and binds the asset to
the derived `.meta` sidecar location; `create` takes no storage and writes
nothing. -/
theorem create_fields (p : Loc) (w hgt : Int) (cn cv : String) (t₁ t₂ : Int) :
    (ImageAsset.create p w hgt cn cv t₁ t₂).doc.type = "image" ∧
    (ImageAsset.create p w hgt cn cv t₁ t₂).doc.file
      = { width := w, height := hgt } ∧
    (ImageAsset.create p w hgt cn cv t₁ t₂).doc.annotations = [] ∧
    (ImageAsset.create p w hgt cn cv t₁ t₂).doc.meta.version = FORMAT_VERSION ∧
    FORMAT_VERSION = 1 ∧
    (ImageAsset.create p w hgt cn cv t₁ t₂).doc.meta.tool = cn ∧
    (ImageAsset.create p w hgt cn cv t₁ t₂).doc.meta.tool_version = cv ∧
    (ImageAsset.create p w hgt cn cv t₁ t₂).doc.meta.created_at = t₁ ∧
    (ImageAsset.create p w hgt cn cv t₁ t₂).doc.meta.updated_at = t₂ ∧
    (t₁ = t₂ →
      (ImageAsset.create p w hgt cn cv t₁ t₂).doc.meta.created_at
        = (ImageAsset.create p w hgt cn cv t₁ t₂).doc.meta.updated_at) ∧
    (ImageAsset.create p w hgt cn cv t₁ t₂).path
      = some (withSuffix p ".meta") ∧
    (ImageAsset.create p w hgt cn cv t₁ t₂).nameMap = [] := by
  refine ⟨rfl, rfl, rfl, rfl, rfl, rfl, rfl, rfl, rfl, ?_, rfl, rfl⟩
  intro h'
  exact h'

theorem create_fields_witness :
    (ImageAsset.create { stem := "level1", ext := ".png" } 1920 1080
        "annota" "0.1.0" 7 7).doc.meta.created_at
      = (ImageAsset.create { stem := "level1", ext := ".png" } 1920 1080
        "annota" "0.1.0" 7 7).doc.meta.updated_at ∧
    (ImageAsset.create { stem := "level1", ext := ".png" } 1920 1080
        "annota" "0.1.0" 7 7).doc.annotations = [] := by
  have h := create_fields { stem := "level1", ext := ".png" } 1920 1080
    "annota" "0.1.0" 7 7
  exact ⟨h.2.2.2.2.2.2.2.2.2.1 rfl, h.2.2.1⟩

/-- C9: `save` resolves its target as the explicit argument when given, else
the asset's bound path; with neither it raises `ValueError` (spec
`NoTargetError`) with nothing written and the document — `meta.updated_at`
included — unchanged; on success it refreshes `meta.updated_at` to the clock
reading and writes the encoded text to the target, replacing that location's
previous content and touching no other location. -/
theorem save_resolves_and_writes (s : AssetState) (pArg : Option Loc)
    (fs : Storage) (now : Int) :
    (pArg = none → s.path = none →
      ImageAsset.save s pArg fs now = (Except.error AssetError.noTarget, s, fs)) ∧
    (∀ target, pArg = some target ∨ (pArg = none ∧ s.path = some target) →
      (ImageAsset.save s pArg fs now).1 = Except.ok () ∧
      (ImageAsset.save s pArg fs now).2.1 = (ImageAsset.dumps s now true 2).1 ∧
      (ImageAsset.save s pArg fs now).2.1.doc.meta.updated_at = now ∧
      (ImageAsset.save s pArg fs now).2.2 target
        = some (some (ImageAsset.dumps s now true 2).2) ∧
      ∀ l, l ≠ target → (ImageAsset.save s pArg fs now).2.2 l = fs l) := by
  constructor
  · intro h₁ h₂
    simp only [ImageAsset.save, h₁, h₂]
  · intro target ht
    rcases ht with rfl | ⟨rfl, h₂⟩
    · refine ⟨rfl, rfl, rfl, ?_, ?_⟩
      · simp [ImageAsset.save]
      · intro l hl
        simp [ImageAsset.save, hl]
    · refine ⟨?_, ?_, ?_, ?_, ?_⟩
      · simp [ImageAsset.save, h₂]
      · simp [ImageAsset.save, h₂]
      · simp [ImageAsset.save, ImageAsset.dumps, h₂]
      · simp [ImageAsset.save, h₂]
      · intro l hl
        simp [ImageAsset.save, h₂, hl]

/-- An asset never loaded from a file and not yet saved. -/
def pathlessAsset : AssetState := ImageAsset.init sampleDoc none

theorem save_resolves_and_writes_witness :
    (ImageAsset.save pathlessAsset none (fun _ => none) 9
      = (Except.error AssetError.noTarget, pathlessAsset, fun _ => none)) ∧
    ((ImageAsset.save sampleAsset none (fun _ => none) 9).1 = Except.ok ()) ∧
    ((ImageAsset.save sampleAsset none (fun _ => none) 9).2.2
        { stem := "img", ext := ".png" }
      = some (some (ImageAsset.dumps sampleAsset 9 true 2).2)) ∧
    ((ImageAsset.save sampleAsset (some { stem := "other", ext := ".meta" })
        (fun _ => none) 9).2.2 { stem := "other", ext := ".meta" }
      = some (some (ImageAsset.dumps sampleAsset 9 true 2).2)) :=
  ⟨(save_resolves_and_writes pathlessAsset none (fun _ => none) 9).1 rfl rfl,
    ((save_resolves_and_writes sampleAsset none (fun _ => none) 9).2
      { stem := "img", ext := ".png" } (Or.inr ⟨rfl, rfl⟩)).1,
    ((save_resolves_and_writes sampleAsset none (fun _ => none) 9).2
      { stem := "img", ext := ".png" } (Or.inr ⟨rfl, rfl⟩)).2.2.2.1,
    ((save_resolves_and_writes sampleAsset
        (some { stem := "other", ext := ".meta" }) (fun _ => none) 9).2
      { stem := "other", ext := ".meta" } (Or.inl rfl)).2.2.2.1⟩

/-- The JSON tree of a sidecar whose two annotations share the name `a`. -/
def dupNamesJson : Json :=
  Json.obj [("type", Json.str "image"),
    ("meta", Json.obj [("version", Json.num 1), ("tool", Json.str "t"),
      ("tool_version", Json.str "1"), ("created_at", Json.num 0),
      ("updated_at", Json.num 0)]),
    ("file", Json.obj [("width", Json.num 10), ("height", Json.num 20)]),
    ("annotations", Json.arr
      [Json.obj [("uuid", Json.str "u1"), ("name", Json.str "a"),
        ("display_name", Json.str "A"),
        ("attributes", Json.obj [("type", Json.str "point"),
          ("geometry", Json.obj [("x", Json.num 1), ("y", Json.num 2)])])],
       Json.obj [("uuid", Json.str "u2"), ("name", Json.str "a"),
        ("display_name", Json.str "B"),
        ("attributes", Json.obj [("type", Json.str "point"),
          ("geometry", Json.obj [("x", Json.num 3), ("y", Json.num 4)])])]])]

/-- The first of the two same-named annotations of `dupNamesJson`. -/
def dupAnnA : Annotation :=
  { uuid := "u1", name := "a", display_name := "A", description := none,
    attributes := AnnotationAttributes.point { x := 1, y := 2 }, extra := none }

/-- The second of the two same-named annotations of `dupNamesJson`. -/
def dupAnnB : Annotation :=
  { uuid := "u2", name := "a", display_name := "B", description := none,
    attributes := AnnotationAttributes.point { x := 3, y := 4 }, extra := none }

/-- C10: neither decoding nor `__init__` enforces name uniqueness — `loads`
on a document with two annotations named `a` succeeds, keeps both entries in
the sequence, indexes the name to the last occurrence (dict-comprehension
semantics), so `get_annotation` returns the later annotation and `len` (2)
exceeds the number of index keys (1). -/
theorem loads_keeps_duplicate_names :
    ∃ t, ImageAsset.loads (fun _ => "g") (some dupNamesJson) none
        = Except.ok t ∧
      t.doc.annotations = [dupAnnA, dupAnnB] ∧
      t.nameMap = [("a", dupAnnB)] ∧
      ImageAsset.get_annotation t "a" = some dupAnnB ∧
      t.doc.annotations.length = 2 ∧
      (t.nameMap.map Prod.fst).length = 1 := by
  refine ⟨_, rfl, ?_, ?_, ?_, ?_, ?_⟩ <;> decide
